import Mathlib

/-!
Verification development for the tinygen static site generator
(src/tinygen.ts).  The TypeScript source is shallowly embedded: pure
helpers become Lean functions, JavaScript objects become association
lists with lookup semantics, the mutable page registry becomes explicit
state passing, fallible or fuel-limited operations return Option.
External collaborators (the markdown library, the syntax highlighter,
the YAML front-matter extractor, dynamic module loading, the
pretty-printer subprocess) are parameters of the embedding, as the
design document treats them purely at their interface boundary.
-/

namespace Tinygen

/-! Association lists model plain JavaScript objects.  `mergeA a b`
models `Object.assign({}, a, b)` (the source's `merge`): entries of `b`
shadow entries of `a`.  The representation puts `b` first so that
`lookupA` (first match wins) gives the JavaScript lookup semantics. -/

def lookupA {α : Type} (l : List (String × α)) (k : String) : Option α :=
  (l.find? (fun kv => kv.1 == k)).map (fun kv => kv.2)

def eraseA {α : Type} (l : List (String × α)) (k : String) : List (String × α) :=
  l.filter (fun kv => kv.1 != k)

def mergeA {α : Type} (a b : List (String × α)) : List (String × α) :=
  b ++ a

def insertA {α : Type} (l : List (String × α)) (k : String) (x : α) : List (String × α) :=
  (k, x) :: eraseA l k

/-! String helpers.  All character-level so that concrete instances
evaluate by `decide` / `rfl`. -/

def startsWithS (s pre : String) : Bool :=
  pre.data.isPrefixOf s.data

def endsWithS (s suf : String) : Bool :=
  suf.data.reverse.isPrefixOf s.data.reverse

def dropRightS (s : String) (n : Nat) : String :=
  String.mk (s.data.take (s.data.length - n))

/-- GetSubstitution expansion of a string replacement (ECMAScript
`String.prototype.replace` with a *string* pattern, hence no capture
groups): the pair dollar-dollar emits one dollar, dollar-ampersand
emits the matched text, dollar-backtick (code 96) emits the text
preceding the match, dollar-apostrophe (code 39) the text following
it; a dollar in any other position stands for itself (including
dollar-digit, since there are no captures). -/
def expandDollar (matched before after : List Char) : List Char → List Char
  | [] => []
  | [c] => [c]
  | c :: d :: t =>
    if c = '$' then
      if d = '$' then '$' :: expandDollar matched before after t
      else if d = '&' then matched ++ expandDollar matched before after t
      else if d = Char.ofNat 96 then before ++ expandDollar matched before after t
      else if d = Char.ofNat 39 then after ++ expandDollar matched before after t
      else c :: expandDollar matched before after (d :: t)
    else c :: expandDollar matched before after (d :: t)

/-- Second character of a recognized dollar-escape pair. -/
def isEscapeSecond (d : Char) : Bool :=
  d == '$' || d == '&' || d == Char.ofNat 96 || d == Char.ofNat 39

/-- No recognized dollar-escape pair occurs in the string;
`expandDollar` is then the identity on it. -/
def noEscape : List Char → Bool
  | [] => true
  | [_] => true
  | c :: d :: t => !((c == '$') && isEscapeSecond d) && noEscape (d :: t)

/-- Index of the first occurrence of `pat` as a contiguous block. -/
def findSub (pat : List Char) : List Char → Option Nat
  | [] => if pat.isEmpty then some 0 else none
  | c :: t =>
    if pat.isPrefixOf (c :: t) then some 0
    else (findSub pat t).map (fun i => i + 1)

/-- JavaScript `String.prototype.replace` with a string pattern:
replace the first occurrence of `pat`, passing the replacement string
through GetSubstitution (dollar-escape expansion against the matched
text and its surroundings); a pattern that does not occur leaves the
string unchanged. -/
def jsReplaceL (pat rep s : List Char) : List Char :=
  match findSub pat s with
  | none => s
  | some i =>
    s.take i ++ expandDollar pat (s.take i) (s.drop (i + pat.length)) rep
      ++ s.drop (i + pat.length)

def jsReplace (s pat rep : String) : String :=
  String.mk (jsReplaceL pat.data rep.data s.data)

/-- Occurrence test: does `pat` occur as a contiguous block of the list? -/
def occursB (pat : List Char) : List Char → Bool
  | [] => pat.isEmpty
  | c :: t => pat.isPrefixOf (c :: t) || occursB pat t

/-! Markdown / highlight adapter (`parseMarkdown` in the source).

The external markdown library is modelled at its interface: the body, as
far as this adapter observes it, is the sequence of output segments the
library produces, where each fenced code block triggers one call of the
configured `highlight` callback (in document order) and every other
segment is emitted as opaque text.  The adapter allocates the counter
locally (fresh per invocation, starting at 0), stashes `{code, lang}`
under the key `placeholderKey i`, lets the library emit the key, and
afterwards replaces each key (insertion order, i.e. document order) by
the asynchronously highlighted markup, modelled by the function `hl`. -/

inductive Seg where
  | text : List Char → Seg
  | code : List Char → List Char → Seg

def placeholderKey (i : Nat) : List Char :=
  '{' :: '{' :: (Nat.repr i).data ++ ['}', '}']

/-- Synchronous pass of `Marked.parse` with the counter-allocating
highlight callback: returns the emitted content (keys in place of code
blocks) and the stash `ctx` in insertion order. -/
def mpGo : Nat → List Seg → List Char × List (Nat × List Char × List Char)
  | _, [] => ([], [])
  | i, Seg.text s :: rest => (s ++ (mpGo i rest).1, (mpGo i rest).2)
  | i, Seg.code c l :: rest =>
      (placeholderKey (i + 1) ++ (mpGo (i + 1) rest).1,
       (i + 1, c, l) :: (mpGo (i + 1) rest).2)

def foldSubst (hl : List Char → List Char → List Char)
    (ctx : List (Nat × List Char × List Char)) (content : List Char) : List Char :=
  ctx.foldl (fun acc e => jsReplaceL (placeholderKey e.1) (hl e.2.1 e.2.2) acc) content

/-- The whole adapter: counter starts at 0 in each invocation; after the
synchronous pass every stashed key is substituted by the highlighted
markup. -/
def parseMarkdown (hl : List Char → List Char → List Char) (segs : List Seg) : List Char :=
  foldSubst hl (mpGo 0 segs).2 (mpGo 0 segs).1

/-- Intended output: text is preserved verbatim, every code block is
replaced by its highlighted markup, in document order. -/
def expectedSeg (hl : List Char → List Char → List Char) : Seg → List Char
  | Seg.text s => s
  | Seg.code c l => hl c l

def expectedML (hl : List Char → List Char → List Char) (segs : List Seg) : List Char :=
  (segs.map (expectedSeg hl)).flatten

def countCode : List Seg → Nat
  | [] => 0
  | Seg.text _ :: r => countCode r
  | Seg.code _ _ :: r => 1 + countCode r

/-- Non-collision invariant stated by the design: no placeholder key may
collide with content lying before its own placeholder at substitution
time (already-substituted highlighted markup and verbatim text). -/
def noCollide (hl : List Char → List Char → List Char) : Nat → List Char → List Seg → Bool
  | _, _, [] => true
  | i, P, Seg.text s :: rest => noCollide hl i (P ++ s) rest
  | i, P, Seg.code c l :: rest =>
      !occursB (placeholderKey (i + 1)) (P ++ (placeholderKey (i + 1)).dropLast)
        && noCollide hl (i + 1) (P ++ hl c l) rest

/-- Bounded freshness check, decidable on concrete inputs: none of the
keys 1..n occurs in the given content. -/
def keysFresh (n : Nat) (content : List Char) : Bool :=
  (List.range n).all (fun j => !occursB (placeholderKey (j + 1)) content)

/-- All highlighted fragments of the body are free of recognized
dollar-escape pairs, so the substitution step inserts them verbatim. -/
def hlNoEscape (hl : List Char → List Char → List Char) : List Seg → Bool
  | [] => true
  | Seg.text _ :: r => hlNoEscape hl r
  | Seg.code c l :: r => noEscape (hl c l) && hlNoEscape hl r

/-! Virtual node vocabulary.

JavaScript values flowing through `render` are: strings, structured
nodes `\x7btag, attrs, children\x7d`, and arrays (view results, and the
flatten check of `v`).  Attribute values are strings or nested style
maps; in the `.tsx` page context the reserved `layout` key holds a view
object.  View objects (`\x7bview: ...\x7d`) are defunctionalised into
`ViewCode`: the finitely many view shapes the generator itself builds,
plus `ViewCode.moduleView`, a dynamically loaded module's default view
whose behaviour is supplied by an environment parameter `ImpEnv` —
dynamic module loading is an external collaborator. -/

mutual
inductive AVal where
  | s : String → AVal
  | styles : List (String × String) → AVal
  | null : AVal
  | viewv : ViewCode → AVal

inductive VNode where
  | str : String → VNode
  | node : VTag → Option (List (String × AVal)) → Option (List VNode) → VNode
  | varr : List VNode → VNode

inductive VTag where
  | lit : String → VTag
  | viewc : ViewCode → VTag

inductive ViewCode where
  | passthrough : ViewCode
  | elemWrap : String → ViewCode
  | constRes : VRes → ViewCode
  | pageMd : List (String × AVal) → String → ViewCode → ViewCode
  | pageTsx : List (String × AVal) → ViewCode → ViewCode
  | moduleView : String → ViewCode

inductive VRes where
  | s : String → VRes
  | arr : List VNode → VRes
  | n : VNode → VRes
  | err : VRes
end

abbrev Attrs := List (String × AVal)

/-- Behaviour of a dynamically loaded module's default view, keyed by
module path: external collaborator, a parameter of the embedding. -/
abbrev ImpEnv := String → Option Attrs → Option (List VNode) → VRes

/-- Invocation of a view object with `\x7battrs, children\x7d`
(`tag.view(\x7battrs, children\x7d)` in `render`). -/
def applyView (env : ImpEnv) : ViewCode → Option Attrs → Option (List VNode) → VRes
  | ViewCode.passthrough, _, c =>
    -- \x7bview: (\x7bchildren\x7d) => children\x7d; with absent children the
    -- caller dereferences undefined and throws
    match c with
    | some l => VRes.arr l
    | none => VRes.err
  | ViewCode.elemWrap t, _, c => VRes.n (VNode.node (VTag.lit t) none c)
  | ViewCode.constRes r, _, _ => r
  | ViewCode.pageMd ctx content lay, _, _ =>
    -- () => v(layout, merge(file.attrs, this.config.global), content)
    VRes.n (VNode.node (VTag.viewc lay) (some ctx) (some [VNode.str content]))
  | ViewCode.pageTsx ctx m, _, _ =>
    -- () => v(mod.default, merge(\x7blayout\x7d, this.config.global))
    VRes.n (VNode.node (VTag.viewc m) (some ctx) (some []))
  | ViewCode.moduleView p, a, c => env p a c

/-- Source `toCssName`: camelCase to kebab-case (`/[A-Z]/g`). -/
def toCssName (s : String) : String :=
  String.mk (s.data.flatMap (fun c => if c.isUpper then ['-', c.toLower] else [c]))

/-- Source `renderStyles`: a nested style map flattens to space-joined
`prop: value;` declarations. -/
def renderStyles (l : List (String × String)) : String :=
  String.intercalate " " (l.map (fun kv => toCssName kv.1 ++ ": " ++ kv.2 ++ ";"))

/-- Rendering of one attribute value (`typeof attrs[attr] === 'object'`
selects `renderStyles`).  A `null` value and a view-object value make the
JavaScript either throw or emit implementation-defined garbage
(`Object.keys(null)` throws); both are modelled as failure. -/
def renderAVal : AVal → Option String
  | AVal.s v => some v
  | AVal.styles l => some (renderStyles l)
  | AVal.null => none
  | AVal.viewv _ => none

/-- Source `renderAttrs`: `attr="value"` pairs, space-joined. -/
def renderAttrs (l : Attrs) : Option String :=
  (l.mapM (fun kv => (renderAVal kv.2).map
      (fun sv => kv.1 ++ "=" ++ "\"" ++ sv ++ "\""))).map
    (String.intercalate " ")

/-- Helper: render each child with the supplied renderer and join
(`children.map(c => render(c)).join("")`); a child failure propagates. -/
def joinRendered (r : VNode → Option String) : List VNode → Option String
  | [] => some ""
  | x :: rest =>
    match r x, joinRendered r rest with
    | some a, some bs => some (a ++ bs)
    | _, _ => none

/-- Source `render(hyperscript)`.  Fuel bounds the recursion depth: the
source recurses unboundedly (the design notes pathological infinite view
delegation is undefined behaviour), so exhaustion yields `none`.
Faithful points: `if (children)` is JavaScript truthiness, so an empty
children *array* takes the open/close branch while only absent children
reach the self-closing branch; `if (tagattrs)` treats the empty
attribute string as absent (no trailing space); a bare array rendered as
a node destructures to an undefined tag and renders
`<undefined />`. -/
def render (env : ImpEnv) : Nat → VNode → Option String
  | 0, _ => none
  | _ + 1, VNode.str s => some s
  | _ + 1, VNode.varr _ => some ("<" ++ "undefined" ++ " />")
  | fuel + 1, VNode.node t a c =>
    match t with
    | VTag.lit tg =>
      match renderAttrs (a.getD []) with
      | none => none
      | some tagattrs =>
        let opentag := if tagattrs = "" then tg else tg ++ " " ++ tagattrs
        match c with
        | some cs =>
          (joinRendered (render env fuel) cs).map
            (fun body => "<" ++ opentag ++ ">" ++ body ++ "</" ++ tg ++ ">")
        | none => some ("<" ++ opentag ++ " />")
    | VTag.viewc vc =>
      match applyView env vc a c with
      | VRes.s s => some s
      | VRes.arr l => joinRendered (render env fuel) l
      | VRes.n v2 => render env fuel v2
      | VRes.err => none

/-- Source `v(tag, attrs, ...children)`: a single array argument is
flattened into the children list; otherwise the argument sequence is the
children list (`children` is a rest parameter, hence always an array and
always truthy). -/
def v (tag : VTag) (attrs : Option Attrs) (children : List VNode) : VNode :=
  match children with
  | [VNode.varr l] => VNode.node tag attrs (some l)
  | _ => VNode.node tag attrs (some children)

/-- Shape test used to state the non-flattening side of C10. -/
def isSingleArrayArg : List VNode → Bool
  | [VNode.varr _] => true
  | _ => false

/-! Path helpers (Deno std `path`, specified at the interface boundary:
Node/Deno `basename`, `extname`, `dirname` semantics for ordinary file
paths). -/

def basename (p : String) : String :=
  String.mk (((p.data.reverse.dropWhile (fun c => c == '/')).takeWhile
    (fun c => c != '/')).reverse)

def extname (p : String) : String :=
  let base := (basename p).data
  let revAfter := base.reverse.takeWhile (fun c => c != '.')
  if revAfter.length == base.length then ""
  else if revAfter.length + 1 == base.length then ""
  else String.mk ('.' :: revAfter.reverse)

def dirnameS (p : String) : String :=
  let r := (((p.data.reverse.dropWhile (fun c => c == '/')).dropWhile
    (fun c => c != '/')).dropWhile (fun c => c == '/')).reverse
  if r.isEmpty then (if startsWithS p "/" then "/" else ".") else String.mk r

/-! Layout resolver (`Generator.layout(name?)`).  The file system is a
list of existing files; a resolved layout file is imported (its default
view is supplied by `GenDeps.importLayout` below), absence falls back to
the passthrough view.  `name` is the raw front-matter value: absent
(`none`), or any front-matter value; the source tests it with JavaScript
truthiness (`if (name)`), under which `null` and the empty string are
indistinguishable from absent, and an object interpolates as
`[object Object]` into the path. -/

def lnameToPathSeg : AVal → Option String
  | AVal.s x => if x = "" then none else some x
  | AVal.null => none
  | AVal.styles _ => some "[object Object]"
  | AVal.viewv _ => some "[object Object]"

inductive LayoutRes where
  | fromFile : String → LayoutRes
  | passthrough : LayoutRes
deriving DecidableEq

def layoutFile (srcDir : String) (name : Option AVal) : String :=
  match name.bind lnameToPathSeg with
  | some seg => srcDir ++ "/" ++ seg ++ "/_layout.tsx"
  | none => srcDir ++ "/_layout.tsx"

def layout (files : List String) (srcDir : String) (name : Option AVal) : LayoutRes :=
  if files.contains (layoutFile srcDir name) then LayoutRes.fromFile (layoutFile srcDir name)
  else LayoutRes.passthrough

/-- Modelled from the spec's resolution rules (4.2) for comparison:
rule 1, `name === null` is an explicit opt-out yielding passthrough even
when a root layout file exists; rule 2, unset falls back to the root
layout file; rule 3, a set name selects the named subdirectory. -/
def layoutFromSpec (files : List String) (srcDir : String) (name : Option AVal) : LayoutRes :=
  match name with
  | some AVal.null => LayoutRes.passthrough
  | none =>
    if files.contains (srcDir ++ "/_layout.tsx") then LayoutRes.fromFile (srcDir ++ "/_layout.tsx")
    else LayoutRes.passthrough
  | some (AVal.s x) =>
    if files.contains (srcDir ++ "/" ++ x ++ "/_layout.tsx")
    then LayoutRes.fromFile (srcDir ++ "/" ++ x ++ "/_layout.tsx")
    else LayoutRes.passthrough
  | some _ => LayoutRes.passthrough

/-- Source `Generator.pagePath`: strip the source-directory string (first
occurrence), strip the extension string (first occurrence), fold a
trailing `/index`, map empty to `/`.  Pure function of
(sourceDir, path). -/
def pagePath (srcDir srcPath : String) : String :=
  let p1 := jsReplace srcPath srcDir ""
  let p2 := jsReplace p1 (extname srcPath) ""
  let p3 := if endsWithS p2 "/index" then dropRightS p2 6 else p2
  if p3 = "" then "/" else p3

/-- Source `Generator.ignorePath`. -/
def ignorePath (destDir path : String) : Bool :=
  if startsWithS path destDir then true
  else
    (basename path == "site.ts" || basename path == "deno.json" || basename path == "deno.lock")
      || startsWithS (basename path) "_"
      || startsWithS (basename path) "."

/-- Modelled from the spec's wording for comparison: a path lies under a
directory when it is the directory itself or a proper descendant. -/
def liesUnder (dir path : String) : Bool :=
  path == dir || startsWithS path (dir ++ "/")

/-- Modelled from the spec (4.1) for comparison with `ignorePath`. -/
def ignoredFromSpec (destDir path : String) : Bool :=
  liesUnder destDir path
    || (basename path == "site.ts" || basename path == "deno.json" || basename path == "deno.lock")
    || startsWithS (basename path) "_"
    || startsWithS (basename path) "."

/-! Render context of a markdown page and the Page loader. -/

/-- Render context delivered to the resolved layout view by a markdown
page's deferred view: `merge(file.attrs, this.config.global)` where the
`layout` key was deleted from the front-matter attributes beforehand. -/
def ctxMd (global fmAttrs : Attrs) : Attrs :=
  mergeA (eraseA fmAttrs "layout") global

/-- Modelled from the spec's words (3: Render context) for comparison:
merge of global config, then front-matter fields (layout key removed),
then the route path under `path`, later sources overriding earlier
ones. -/
def ctxFromSpec (global fmAttrs : Attrs) (route : String) : Attrs :=
  mergeA (mergeA global (eraseA fmAttrs "layout")) [("path", AVal.s route)]

/-- Page entity: source path, route, deferred view, and the
front-matter fields spread onto the page. -/
structure Page where
  src : String
  path : String
  viewc : ViewCode
  fm : Attrs

/-- External collaborators of the page loader: the YAML front-matter
extractor (attrs and body), the markdown conversion (the composite
observed as a string-to-string pass here; its internals are the segment
model above), and dynamic imports of layout and template modules. -/
structure GenDeps where
  extract : String → Attrs × String
  md : String → String
  importLayout : String → ViewCode
  importTsx : String → ViewCode

def layoutView (deps : GenDeps) : LayoutRes → ViewCode
  | LayoutRes.fromFile p => deps.importLayout p
  | LayoutRes.passthrough => ViewCode.passthrough

/-- Markdown branch of `Generator.loadPage`: synthesize an empty
front-matter block when the text does not open with `---`, extract front
matter, parse the body, resolve the layout named by the front matter,
delete the `layout` key, and build the page with its deferred view. -/
def mkMdPage (deps : GenDeps) (global : Attrs) (files : List String)
    (srcDir srcPath raw : String) : Page :=
  let contents := if startsWithS raw "---" then raw else "---\n---\n" ++ raw
  let ex := deps.extract contents
  let content := deps.md ex.2
  let lay := layout files srcDir (lookupA ex.1 "layout")
  { src := srcPath, path := pagePath srcDir srcPath,
    viewc := ViewCode.pageMd (ctxMd global ex.1) content (layoutView deps lay),
    fm := eraseA ex.1 "layout" }

/-- Source `Generator.loadPage`, dispatched on the extension; the
registry (route to Page) is threaded explicitly.  A missing markdown
file (the read throws in the source) and an unrecognized extension both
yield no page. -/
def loadPage (deps : GenDeps) (global : Attrs) (files : List String)
    (fs : List (String × String)) (srcDir : String)
    (st : List (String × Page)) (srcPath : String) : List (String × Page) × Option Page :=
  if extname srcPath == ".md" then
    match lookupA fs srcPath with
    | none => (st, none)
    | some raw =>
      let page := mkMdPage deps global files srcDir srcPath raw
      (insertA st page.path page, some page)
  else if extname srcPath == ".tsx" then
    let rootLay := layoutView deps (layout files srcDir none)
    let page : Page :=
      { src := srcPath, path := pagePath srcDir srcPath,
        viewc := ViewCode.pageTsx (mergeA [("layout", AVal.viewv rootLay)] global)
          (deps.importTsx srcPath),
        fm := [] }
    (insertA st page.path page, some page)
  else (st, none)

/-- Source `Generator.loadAll`: walk entries (files only), skipping
ignored paths, loading every other file. -/
def loadAll (deps : GenDeps) (global : Attrs) (files : List String)
    (fs : List (String × String)) (srcDir destDir : String)
    (st : List (String × Page)) (walk : List String) : List (String × Page) :=
  walk.foldl
    (fun st2 e => if ignorePath destDir e then st2
                  else (loadPage deps global files fs srcDir st2 e).1) st

/-- Deferred view of a page as rendered by `Generator.render`:
`v(page)` is a node whose tag is the page's view object, with no attrs
and an empty children array. -/
def pageVNode (p : Page) : VNode :=
  VNode.node (VTag.viewc p.viewc) none (some [])

/-- Source `Generator.render`: doctype prefix plus the pretty-printed
rendering of `v(page)`.  The pretty-printer is an external subprocess,
a parameter. -/
def genRender (env : ImpEnv) (pretty : String → String) (fuel : Nat) (p : Page) : Option String :=
  (render env fuel (pageVNode p)).map (fun s => "<!DOCTYPE html>\n" ++ pretty s)

/-- Source `Generator.rebuild`: unknown route answers null; a known
route re-invokes the loader on the page's recorded source path and
renders the reloaded page. -/
def rebuild (deps : GenDeps) (global : Attrs) (files : List String)
    (fs : List (String × String)) (srcDir : String)
    (env : ImpEnv) (pretty : String → String) (fuel : Nat)
    (st : List (String × Page)) (route : String) : List (String × Page) × Option String :=
  match lookupA st route with
  | none => (st, none)
  | some page =>
    let r := loadPage deps global files fs srcDir st page.src
    (r.1, r.2.bind (genRender env pretty fuel))

/-- State-threaded form of `Generator.render` for the repeatability
property: rendering reads the page only and leaves the registry
untouched. -/
def renderSt (env : ImpEnv) (pretty : String → String) (fuel : Nat)
    (st : List (String × Page)) (p : Page) : List (String × Page) × Option String :=
  (st, genRender env pretty fuel p)

/-! Build orchestration (`Generator.buildAll`). -/

def buildTarget (destDir : String) (p : Page) : String :=
  destDir ++ p.path ++ "/index.html"

structure WriteOut where
  target : String
  dirCreated : String
  content : String
deriving DecidableEq

/-- One page write of `buildAll`: render; a falsy (empty) output writes
nothing; otherwise write to `destDir + page.path + "/index.html"` after
`mkdirAll(dirname(target))` (recursive, so every ancestor exists). -/
def buildStepWrite (env : ImpEnv) (pretty : String → String) (fuel : Nat)
    (destDir : String) (p : Page) : Option WriteOut :=
  (genRender env pretty fuel p).bind (fun out =>
    if out = "" then none
    else some { target := buildTarget destDir p,
                dirCreated := dirnameS (buildTarget destDir p),
                content := out })

/-- Modelled from the spec (6: Output file layout) for comparison: a
route with an extension is written verbatim, one without gets
`/index.html`. -/
def targetFromSpec (destDir route : String) : String :=
  if extname route == "" then destDir ++ route ++ "/index.html" else destDir ++ route

inductive BAct where
  | write : WriteOut → BAct
  | copy : String → String → String → BAct
deriving DecidableEq

/-- One `buildAll` loop iteration for a walked file: skip ignored paths;
a path whose route has a registered page is rendered and written; any
other path is copied to the mirrored location under the destination. -/
def buildAction (env : ImpEnv) (pretty : String → String) (fuel : Nat)
    (destDir srcDir : String) (st : List (String × Page)) (e : String) : Option BAct :=
  if ignorePath destDir e then none
  else
    match lookupA st (pagePath srcDir e) with
    | some page => (buildStepWrite env pretty fuel destDir page).map BAct.write
    | none =>
      let outpath := destDir ++ "/" ++ jsReplace e srcDir ""
      some (BAct.copy e outpath (dirnameS outpath))

def buildAllActions (env : ImpEnv) (pretty : String → String) (fuel : Nat)
    (destDir srcDir : String) (st : List (String × Page)) (walk : List String) : List BAct :=
  walk.filterMap (buildAction env pretty fuel destDir srcDir st)

/-- Source `Generator.buildAll`: `loadAll` first, then the write/copy
walk against the loaded registry. -/
def buildAll (deps : GenDeps) (global : Attrs) (files : List String)
    (fs : List (String × String)) (srcDir destDir : String)
    (env : ImpEnv) (pretty : String → String) (fuel : Nat)
    (st : List (String × Page)) (walk : List String) : List BAct :=
  buildAllActions env pretty fuel destDir srcDir
    (loadAll deps global files fs srcDir destDir st walk) walk

/-! Concrete fixtures for witnesses and counterexamples. -/

/-- Module environment with no loadable modules. -/
def envErr : ImpEnv := fun _ _ _ => VRes.err

/-- Trivial external collaborators: empty front matter, identity
markdown pass, passthrough modules. -/
def deps0 : GenDeps :=
  { extract := fun s => ([], s), md := fun s => s,
    importLayout := fun _ => ViewCode.passthrough,
    importTsx := fun _ => ViewCode.passthrough }

/-- Registered page whose route carries an `.xml` extension. -/
def pageXml : Page :=
  { src := "/s/feed.xml.md", path := "/feed.xml",
    viewc := ViewCode.constRes (VRes.s "x"), fm := [] }

/-- Markdown page loaded from an earlier file-system state, fixture for
the rebuild witness. -/
def pageP : Page := mkMdPage deps0 [] [] "/s" "/s/p.md" "old"

/-- Highlighter whose output is the two-character pair
dollar-ampersand: realistic, since an HTML-escaping highlighter turns
source code containing that pair into `$&amp;`, which still contains
it. -/
def hlAmp : List Char → List Char → List Char := fun _ _ => ['$', '&']

/-!
Theorems.  General lemmas first, then one theorem per claim with its
witness or counterexample.
-/

theorem lookupA_mergeA {α : Type} (a b : List (String × α)) (k : String) :
    lookupA (mergeA a b) k = (lookupA b k).orElse (fun _ => lookupA a k) := by
  simp only [lookupA, mergeA, List.find?_append]
  cases b.find? (fun kv => kv.1 == k) <;> simp [Option.orElse]

theorem lookupA_eraseA {α : Type} (l : List (String × α)) (k : String) :
    lookupA (eraseA l k) k = none := by
  have h : (List.filter (fun kv => kv.1 != k) l).find? (fun kv => kv.1 == k) = none := by
    rw [List.find?_eq_none]
    intro x hx
    have hpx := List.of_mem_filter hx
    simp only [bne_iff_ne, ne_eq] at hpx
    simp [hpx]
  simp [lookupA, eraseA, h]

theorem isPrefixOf_self_append (l t : List Char) : l.isPrefixOf (l ++ t) = true := by
  induction l with
  | nil => simp
  | cons c cs ih => simp [List.isPrefixOf_cons₂, ih]

theorem isPrefixOf_take (p : List Char) : ∀ l : List Char,
    p.isPrefixOf l = p.isPrefixOf (l.take p.length) := by
  induction p with
  | nil => intro l; simp
  | cons a as ih =>
    intro l
    cases l with
    | nil => simp
    | cons b bs => simp [List.isPrefixOf_cons₂, List.take, ih bs]

/-- GetSubstitution expansion is the identity on a replacement free of
recognized dollar-escape pairs. -/
theorem expandDollar_of_noEscape (m bf af : List Char) :
    ∀ l : List Char, noEscape l = true → expandDollar m bf af l = l := by
  intro l
  induction l with
  | nil => intro _; rfl
  | cons c t ih =>
    intro h
    cases t with
    | nil => rfl
    | cons d t2 =>
      have hh : (!((c == '$') && isEscapeSecond d) && noEscape (d :: t2)) = true := by
        simpa [noEscape] using h
      have h1 : ((c == '$') && isEscapeSecond d) = false := by
        cases hx : ((c == '$') && isEscapeSecond d) with
        | false => rfl
        | true => rw [hx] at hh; simp at hh
      have h2 : noEscape (d :: t2) = true := by
        cases hx : noEscape (d :: t2) with
        | true => rfl
        | false => rw [hx] at hh; simp at hh
      have ih2 := ih h2
      by_cases hc : c = '$'
      · have hcb : (c == '$') = true := by simp [hc]
        rw [hcb, Bool.true_and] at h1
        have hd1 : ¬ d = '$' := by
          intro hx; rw [hx] at h1; simp [isEscapeSecond] at h1
        have hd2 : ¬ d = '&' := by
          intro hx; rw [hx] at h1; simp [isEscapeSecond] at h1
        have hd3 : ¬ d = Char.ofNat 96 := by
          intro hx; rw [hx] at h1; simp [isEscapeSecond] at h1
        have hd4 : ¬ d = Char.ofNat 39 := by
          intro hx; rw [hx] at h1; simp [isEscapeSecond] at h1
        simp only [expandDollar]
        rw [if_pos hc, if_neg hd1, if_neg hd2, if_neg hd3, if_neg hd4, ih2]
      · simp only [expandDollar]
        rw [if_neg hc, ih2]

/-- First-occurrence search on an exhibited occurrence: if `pat` does
not occur strictly earlier (expressed as: not inside `a` extended by
everything but the last character of `pat`), the occurrence at the seam
is the first one. -/
theorem findSub_append (pat b : List Char) (hne : pat ≠ []) :
    ∀ a : List Char, occursB pat (a ++ pat.dropLast) = false →
    findSub pat (a ++ pat ++ b) = some a.length := by
  intro a
  induction a with
  | nil =>
    intro _
    cases pat with
    | nil => exact absurd rfl hne
    | cons p pt =>
      show findSub (p :: pt) ([] ++ (p :: pt) ++ b) = some ([] : List Char).length
      simp only [List.nil_append, List.length_nil]
      have hform : (p :: pt) ++ b = p :: (pt ++ b) := rfl
      rw [hform]
      simp only [findSub]
      have hpre : (p :: pt).isPrefixOf (p :: (pt ++ b)) = true := by
        simp [hform, isPrefixOf_self_append (p :: pt) b]
      rw [hpre]
      simp
  | cons c a' ih =>
    intro h
    have h' : (pat.isPrefixOf ((c :: a') ++ pat.dropLast)
        || occursB pat (a' ++ pat.dropLast)) = false := by
      simpa [occursB] using h
    have h1 : pat.isPrefixOf ((c :: a') ++ pat.dropLast) = false := by
      cases hb : pat.isPrefixOf ((c :: a') ++ pat.dropLast) with
      | false => rfl
      | true => rw [hb] at h'; simp at h'
    have h2 : occursB pat (a' ++ pat.dropLast) = false := by
      cases hb : occursB pat (a' ++ pat.dropLast) with
      | false => rfl
      | true => rw [hb] at h'; simp at h'
    have hpos : 1 ≤ pat.length := by
      cases pat with
      | nil => exact absurd rfl hne
      | cons _ _ => simp
    have hlen : pat.length ≤ ((c :: a') ++ pat.dropLast).length := by
      have hd : pat.dropLast.length = pat.length - 1 := List.length_dropLast pat
      simp only [List.length_append, List.length_cons, hd]
      omega
    have hagree : ((c :: a') ++ pat ++ b).take pat.length
        = ((c :: a') ++ pat.dropLast).take pat.length := by
      obtain ⟨x, hx⟩ : ∃ x, pat.dropLast ++ [x] = pat :=
        ⟨pat.getLast hne, List.dropLast_append_getLast hne⟩
      have hsplit : (c :: a') ++ pat ++ b = ((c :: a') ++ pat.dropLast) ++ ([x] ++ b) := by
        rw [← hx]; simp
      rw [hsplit, List.take_append_of_le_length hlen]
    have hnotpre : pat.isPrefixOf ((c :: a') ++ pat ++ b) = false := by
      rw [isPrefixOf_take, hagree, ← isPrefixOf_take]
      exact h1
    have hstep : (c :: a') ++ pat ++ b = c :: (a' ++ pat ++ b) := by simp
    rw [hstep]
    simp only [findSub]
    rw [hstep] at hnotpre
    rw [hnotpre]
    simp only [Bool.false_eq_true, if_false]
    rw [ih h2]
    simp

/-- First-occurrence replacement on an exhibited occurrence: the seam
occurrence is replaced by the dollar-expanded replacement. -/
theorem jsReplaceL_append (pat rep b : List Char) (hne : pat ≠ []) (a : List Char)
    (h : occursB pat (a ++ pat.dropLast) = false) :
    jsReplaceL pat rep (a ++ pat ++ b) = a ++ expandDollar pat a b rep ++ b := by
  have hfind := findSub_append pat b hne a h
  have ht : (a ++ pat ++ b).take a.length = a := by
    rw [List.append_assoc]
    exact List.take_left a (pat ++ b)
  have hd : (a ++ pat ++ b).drop (a.length + pat.length) = b := by
    have hlen2 : (a ++ pat).length = a.length + pat.length := by simp
    calc (a ++ pat ++ b).drop (a.length + pat.length)
        = ((a ++ pat) ++ b).drop ((a ++ pat).length) := by rw [hlen2]
      _ = b := List.drop_left (a ++ pat) b
  simp only [jsReplaceL, hfind, ht, hd]

theorem placeholderKey_ne_nil (i : Nat) : placeholderKey i ≠ [] := by
  simp [placeholderKey]

theorem foldSubst_mpGo (hl : List Char → List Char → List Char) :
    ∀ (segs : List Seg) (i : Nat) (P : List Char),
    noCollide hl i P segs = true → hlNoEscape hl segs = true →
    foldSubst hl (mpGo i segs).2 (P ++ (mpGo i segs).1) = P ++ expectedML hl segs := by
  intro segs
  induction segs with
  | nil => intro i P _ _; simp [mpGo, foldSubst, expectedML]
  | cons sg rest ih =>
    intro i P hnc hesc
    cases sg with
    | text s =>
      have hnc' : noCollide hl i (P ++ s) rest = true := by simpa [noCollide] using hnc
      have hesc' : hlNoEscape hl rest = true := by simpa [hlNoEscape] using hesc
      have h3 := ih i (P ++ s) hnc' hesc'
      simp only [foldSubst] at h3
      simp only [mpGo, foldSubst]
      rw [← List.append_assoc, h3]
      simp [expectedML, expectedSeg]
    | code c l =>
      have hb : (!occursB (placeholderKey (i + 1)) (P ++ (placeholderKey (i + 1)).dropLast)
          && noCollide hl (i + 1) (P ++ hl c l) rest) = true := by
        simpa [noCollide] using hnc
      have h1 : occursB (placeholderKey (i + 1)) (P ++ (placeholderKey (i + 1)).dropLast) = false := by
        cases hx : occursB (placeholderKey (i + 1)) (P ++ (placeholderKey (i + 1)).dropLast) with
        | false => rfl
        | true => rw [hx] at hb; simp at hb
      have h2 : noCollide hl (i + 1) (P ++ hl c l) rest = true := by
        cases hx : noCollide hl (i + 1) (P ++ hl c l) rest with
        | true => rfl
        | false => rw [hx] at hb; simp at hb
      have hbe : (noEscape (hl c l) && hlNoEscape hl rest) = true := by
        simpa [hlNoEscape] using hesc
      have he1 : noEscape (hl c l) = true := by
        cases hx : noEscape (hl c l) with
        | true => rfl
        | false => rw [hx] at hbe; simp at hbe
      have he2 : hlNoEscape hl rest = true := by
        cases hx : hlNoEscape hl rest with
        | true => rfl
        | false => rw [hx] at hbe; simp at hbe
      simp only [mpGo, foldSubst, List.foldl_cons]
      rw [← List.append_assoc]
      rw [jsReplaceL_append (placeholderKey (i + 1)) (hl c l) (mpGo (i + 1) rest).1
            (placeholderKey_ne_nil (i + 1)) P h1]
      rw [expandDollar_of_noEscape (placeholderKey (i + 1)) P (mpGo (i + 1) rest).1
            (hl c l) he1]
      have h3 := ih (i + 1) (P ++ hl c l) h2 he2
      simp only [foldSubst] at h3
      rw [h3]
      simp [expectedML, expectedSeg]

theorem stringDataAppend (a b : String) : (a ++ b).data = a.data ++ b.data := by
  cases a; cases b; rfl

theorem doctype_append_ne_empty (t : String) : ("<!DOCTYPE html>\n" ++ t) ≠ "" := by
  intro h
  have hd := congrArg String.data h
  rw [stringDataAppend] at hd
  have h0 : ("" : String).data = [] := rfl
  rw [h0] at hd
  have h1 := (List.append_eq_nil.mp hd).1
  have h2 : ("<!DOCTYPE html>\n" : String).data ≠ [] := by decide
  exact h2 h1

/-- Counterexample to C5 as stated: a body with a single code block
whose highlighted fragment is the pair dollar-ampersand (which an
HTML-escaping highlighter preserves: `&` becomes `&amp;`, keeping the
pair) makes the substitution's GetSubstitution step re-insert the
matched placeholder, so the adapter's output is the literal placeholder
token itself — one literal placeholder token, zero correctly
substituted fragments — although the design's non-collision and
freshness invariants both hold. -/
theorem c5_subst_counterexample :
    noCollide hlAmp 0 [] [Seg.code ['x'] []] = true ∧
    keysFresh (countCode [Seg.code ['x'] []])
      (expectedML hlAmp [Seg.code ['x'] []]) = true ∧
    parseMarkdown hlAmp [Seg.code ['x'] []] = placeholderKey 1 ∧
    parseMarkdown hlAmp [Seg.code ['x'] []] ≠ expectedML hlAmp [Seg.code ['x'] []] ∧
    occursB (placeholderKey 1) (parseMarkdown hlAmp [Seg.code ['x'] []]) = true := by
  refine ⟨by decide, by decide, by decide, by decide, by decide⟩

/-- C5 (amended): for a markdown body containing n fenced code blocks,
under the design's non-collision invariant (`noCollide`: a placeholder
key never collides with content standing before its placeholder at
substitution time; `keysFresh`: no key occurs in the fully substituted
document) and provided additionally that no highlighted fragment
contains a dollar-escape pair recognized by String.replace
(`hlNoEscape`; otherwise the replacement is expanded and can re-insert
the placeholder or duplicate surroundings), the adapter's output is
exactly the concatenation of the verbatim text segments and the n
highlighted fragments in document order — hence zero literal
placeholder tokens remain, exactly n highlighted fragments appear, each
corresponding by content to its code block, and all surrounding
non-code content is preserved exactly.  The placeholder counter is
allocated inside `parseMarkdown` (started at 0 per call), so it is
scoped to a single invocation, and a body with zero code blocks passes
through unchanged. -/
theorem parseMarkdown_complete (hl : List Char → List Char → List Char) (segs : List Seg)
    (hnc : noCollide hl 0 [] segs = true)
    (hesc : hlNoEscape hl segs = true)
    (hfresh : keysFresh (countCode segs) (expectedML hl segs) = true) :
    parseMarkdown hl segs = expectedML hl segs ∧
    keysFresh (countCode segs) (parseMarkdown hl segs) = true := by
  have h := foldSubst_mpGo hl segs 0 [] hnc hesc
  simp only [List.nil_append] at h
  have hmain : parseMarkdown hl segs = expectedML hl segs := by
    simpa [parseMarkdown] using h
  exact ⟨hmain, by rw [hmain]; exact hfresh⟩

/-- Witness for C5's amended theorem at a concrete two-code-block body. -/
theorem parseMarkdown_complete_witness :
    noCollide (fun c l => 'H' :: (c ++ l)) 0 []
        [Seg.text ['A'], Seg.code ['x'] ['j'], Seg.text ['B'],
         Seg.code ['y'] [], Seg.text ['C']] = true ∧
    parseMarkdown (fun c l => 'H' :: (c ++ l))
        [Seg.text ['A'], Seg.code ['x'] ['j'], Seg.text ['B'],
         Seg.code ['y'] [], Seg.text ['C']]
      = expectedML (fun c l => 'H' :: (c ++ l))
        [Seg.text ['A'], Seg.code ['x'] ['j'], Seg.text ['B'],
         Seg.code ['y'] [], Seg.text ['C']] :=
  ⟨by decide,
   (parseMarkdown_complete (fun c l => 'H' :: (c ++ l))
      [Seg.text ['A'], Seg.code ['x'] ['j'], Seg.text ['B'],
       Seg.code ['y'] [], Seg.text ['C']] (by decide) (by decide) (by decide)).1⟩

/-- Counterexample to C1 as stated: with global `title = G`, front matter
`title = F, layout = main` and route `/p`, the context the code delivers
has no `path` key at all (the spec-worded context has `path = /p`), and
the collision resolves to the global value `G` (the spec-worded merge
order yields the front-matter value `F`). -/
theorem c1_context_counterexample :
    lookupA (ctxMd [("title", AVal.s "G")]
      [("title", AVal.s "F"), ("layout", AVal.s "main")]) "path" = none ∧
    lookupA (ctxFromSpec [("title", AVal.s "G")]
      [("title", AVal.s "F"), ("layout", AVal.s "main")] "/p") "path" = some (AVal.s "/p") ∧
    lookupA (ctxMd [("title", AVal.s "G")]
      [("title", AVal.s "F"), ("layout", AVal.s "main")]) "title" = some (AVal.s "G") ∧
    lookupA (ctxFromSpec [("title", AVal.s "G")]
      [("title", AVal.s "F"), ("layout", AVal.s "main")] "/p") "title" = some (AVal.s "F") :=
  ⟨rfl, rfl, rfl, rfl⟩

/-- C1 (amended): the render context delivered to the resolved layout
view of a markdown page is the merge of the front-matter fields with the
`layout` key removed, then the global config values, with the *global*
values overriding front matter on key collision; no `path` key is added;
the front-matter `layout` key never survives (a `layout` entry can only
come from the global config).  The third conjunct ties the context to the
loader: the page built by `mkMdPage` defers exactly this context to the
resolved layout. -/
theorem c1_context_amended (g fm : Attrs) (k : String) (deps : GenDeps)
    (files : List String) (srcDir srcPath raw : String) :
    lookupA (ctxMd g fm) k
      = (lookupA g k).orElse (fun _ => lookupA (eraseA fm "layout") k) ∧
    lookupA (ctxMd g fm) "layout" = lookupA g "layout" ∧
    (mkMdPage deps g files srcDir srcPath raw).viewc
      = ViewCode.pageMd
          (ctxMd g (deps.extract (if startsWithS raw "---" then raw
                                  else "---\n---\n" ++ raw)).1)
          (deps.md (deps.extract (if startsWithS raw "---" then raw
                                  else "---\n---\n" ++ raw)).2)
          (layoutView deps (layout files srcDir
            (lookupA (deps.extract (if startsWithS raw "---" then raw
                                    else "---\n---\n" ++ raw)).1 "layout"))) := by
  refine ⟨by simp only [ctxMd, lookupA_mergeA], ?_, rfl⟩
  simp only [ctxMd, lookupA_mergeA, lookupA_eraseA]
  cases lookupA g "layout" <;> simp [Option.orElse]

/-- Counterexample to C2 as stated: with the root layout file present,
an explicit `layout: null` still resolves to the imported root layout —
`if (name)` cannot distinguish `null` from unset — where the spec's rule
demands the passthrough view. -/
theorem c2_layout_null_counterexample :
    layout ["/s/_layout.tsx"] "/s" (some AVal.null) = LayoutRes.fromFile "/s/_layout.tsx" ∧
    layoutFromSpec ["/s/_layout.tsx"] "/s" (some AVal.null) = LayoutRes.passthrough ∧
    LayoutRes.fromFile "/s/_layout.tsx" ≠ LayoutRes.passthrough := by
  refine ⟨by decide, by decide, by decide⟩

/-- C2 (amended): `resolveLayout(null)` behaves exactly like
`resolveLayout(undefined)` — an explicit `layout: null` falls back to
the root layout file when one exists; the passthrough view is returned
only when the selected layout file is absent (here: when no file
exists at all). -/
theorem c2_layout_null_amended (files : List String) (dir : String) :
    layout files dir (some AVal.null) = layout files dir none ∧
    layout [] dir (some AVal.null) = LayoutRes.passthrough :=
  ⟨rfl, rfl⟩

/-- Counterexample to C3 as stated: the registered page at route
`/feed.xml` (an extension-carrying route) is written by the code to
`<destDir>/feed.xml/index.html` — not to `<destDir>/feed.xml` as the
claim demands — and its output starts with the HTML doctype, not an XML
prolog. -/
theorem c3_build_counterexample :
    buildTarget "/out" pageXml = "/out/feed.xml/index.html" ∧
    targetFromSpec "/out" "/feed.xml" = "/out/feed.xml" ∧
    buildTarget "/out" pageXml ≠ targetFromSpec "/out" "/feed.xml" ∧
    genRender envErr id 2 pageXml = some "<!DOCTYPE html>\nx" ∧
    startsWithS "<!DOCTYPE html>\nx" "<!DOCTYPE html>\n" = true := by
  refine ⟨by decide, by decide, by decide, by decide, by decide⟩

/-- C3 (amended): every page written by `buildAll` is written to
`<destDir><route>/index.html` — unconditionally, whether or not the
route carries an extension — with the rendered output always prefixed by
the HTML doctype (there is no XML-prolog selection), and the target's
parent directory is created recursively beforehand (so all ancestor
directories exist). -/
theorem c3_build_write_amended (env : ImpEnv) (pretty : String → String) (fuel : Nat)
    (destDir srcDir : String) (st : List (String × Page)) (e : String)
    (page : Page) (out : String)
    (hig : ignorePath destDir e = false)
    (hlook : lookupA st (pagePath srcDir e) = some page)
    (hout : genRender env pretty fuel page = some out) :
    buildAction env pretty fuel destDir srcDir st e
      = some (BAct.write
          { target := destDir ++ page.path ++ "/index.html",
            dirCreated := dirnameS (destDir ++ page.path ++ "/index.html"),
            content := out }) ∧
    startsWithS out "<!DOCTYPE html>\n" = true := by
  obtain ⟨s0, hs0, hout2⟩ := Option.map_eq_some'.mp hout
  constructor
  · simp only [buildAction, hig, Bool.false_eq_true, if_false, hlook]
    simp only [buildStepWrite, hout, Option.some_bind]
    rw [if_neg (by rw [← hout2]; exact doctype_append_ne_empty (pretty s0))]
    rfl
  · rw [← hout2]
    simp only [startsWithS, stringDataAppend]
    exact isPrefixOf_self_append _ _

/-- Witness for C3's amended theorem at a concrete `.xml`-routed page. -/
theorem c3_build_write_amended_witness :
    buildAction envErr id 2 "/out" "/s" [("/feed.xml", pageXml)] "/s/feed.xml.md"
      = some (BAct.write
          { target := "/out" ++ pageXml.path ++ "/index.html",
            dirCreated := dirnameS ("/out" ++ pageXml.path ++ "/index.html"),
            content := "<!DOCTYPE html>\nx" }) ∧
    startsWithS "<!DOCTYPE html>\nx" "<!DOCTYPE html>\n" = true :=
  c3_build_write_amended envErr id 2 "/out" "/s" [("/feed.xml", pageXml)]
    "/s/feed.xml.md" pageXml "<!DOCTYPE html>\nx" (by decide) rfl (by decide)

/-- Counterexample to C4 as stated: a literal-tag node with an *empty
children array* renders as an open/close pair, not in the self-closing
form the claim demands for that case (only absent children self-close:
`if (children)` is truthy on an empty array). -/
theorem c4_selfclose_counterexample :
    render envErr 1 (VNode.node (VTag.lit "br") none (some [])) = some "<br></br>" ∧
    render envErr 1 (VNode.node (VTag.lit "br") none (some [])) ≠ some "<br />" := by
  refine ⟨by decide, by decide⟩

/-- C4 (amended): for a literal-tag node with absent attributes, the
attribute list renders empty with no trailing space; *absent* children
render the self-closing form `<tag />`, while an *empty children array*
renders the open/close pair `<tag></tag>` with an empty body. -/
theorem c4_selfclose_amended (env : ImpEnv) (fuel : Nat) (tg : String) :
    render env (fuel + 1) (VNode.node (VTag.lit tg) none none)
      = some ("<" ++ tg ++ " />") ∧
    render env (fuel + 1) (VNode.node (VTag.lit tg) none (some []))
      = some ("<" ++ tg ++ ">" ++ "" ++ "</" ++ tg ++ ">") :=
  ⟨rfl, rfl⟩

/-- Counterexample to C6 as stated: the claim's example triple
(`a/b.md`, `a/index.md`, `a.md` rooted at `a` give `/b`, `/a`, `/a`) is
not realised by the code under either reading of "rooted at a": with the
source directory `/s/a`, `a/index.md` folds all the way to `/` (not
`/a`); with the source directory `/s` (parent of `a`), `a/b.md` maps to
`/a/b` (not `/b`). -/
theorem c6_routes_counterexample :
    pagePath "/s/a" "/s/a/index.md" = "/" ∧
    pagePath "/s/a" "/s/a/index.md" ≠ "/a" ∧
    pagePath "/s" "/s/a/b.md" = "/a/b" ∧
    pagePath "/s" "/s/a/b.md" ≠ "/b" := by
  refine ⟨by decide, by decide, by decide, by decide⟩

/-- C6 (amended): `pagePath` strips the source-directory string and the
extension and folds a trailing `/index`, mapping an empty remainder to
`/`; on the claim's example files the routes are: with source directory
`a` itself, `/b`, `/` and `/`; with the parent of `a` as source
directory, `/a/b`, `/a` and `/a`.  (Purity in (sourceDir, path) holds by
construction: `pagePath` is a function of exactly those two
arguments.) -/
theorem c6_routes_amended :
    pagePath "/s/a" "/s/a/b.md" = "/b" ∧
    pagePath "/s/a" "/s/a/index.md" = "/" ∧
    pagePath "/s/a" "/s/a.md" = "/" ∧
    pagePath "/s" "/s/a/b.md" = "/a/b" ∧
    pagePath "/s" "/s/a/index.md" = "/a" ∧
    pagePath "/s" "/s/a.md" = "/a" := by
  refine ⟨by decide, by decide, by decide, by decide, by decide, by decide⟩

/-- C7: `rebuild` on a route absent from the registry returns null and
leaves the registry unchanged (no failure); on a registered route it
re-invokes the page loader on that page's recorded source path and
returns the render of the reloaded page — in particular, for a markdown
page the result is computed from the file system state passed *now*, so
an edit to the backing file is reflected. -/
theorem c7_rebuild (deps : GenDeps) (global : Attrs) (files : List String)
    (fs : List (String × String)) (srcDir : String)
    (env : ImpEnv) (pretty : String → String) (fuel : Nat)
    (st : List (String × Page)) (route : String) :
    (lookupA st route = none →
      rebuild deps global files fs srcDir env pretty fuel st route = (st, none)) ∧
    (∀ page, lookupA st route = some page →
      rebuild deps global files fs srcDir env pretty fuel st route
        = ((loadPage deps global files fs srcDir st page.src).1,
           (loadPage deps global files fs srcDir st page.src).2.bind
             (genRender env pretty fuel))) ∧
    (∀ page raw, lookupA st route = some page →
      extname page.src = ".md" → lookupA fs page.src = some raw →
      (rebuild deps global files fs srcDir env pretty fuel st route).2
        = genRender env pretty fuel (mkMdPage deps global files srcDir page.src raw)) := by
  refine ⟨?_, ?_, ?_⟩
  · intro h
    simp [rebuild, h]
  · intro page h
    simp [rebuild, h]
  · intro page raw h hmd hfs
    simp [rebuild, h, loadPage, hmd, hfs]

/-- Witness for C7: a registry holding route `/p` backed by `/s/p.md`;
the file system now holds edited content `"hello"`, and `rebuild`
renders the page loaded from that edited content. -/
theorem c7_rebuild_witness :
    lookupA [("/p", pageP)] "/p" = some pageP ∧
    (rebuild deps0 [] [] [("/s/p.md", "hello")] "/s" envErr id 3
        [("/p", pageP)] "/p").2
      = genRender envErr id 3 (mkMdPage deps0 [] [] "/s" "/s/p.md" "hello") :=
  ⟨rfl,
   (c7_rebuild deps0 [] [] [("/s/p.md", "hello")] "/s" envErr id 3
      [("/p", pageP)] "/p").2.2 pageP "hello" rfl (by decide) rfl⟩

/-- Counterexample to C8 as stated: the path `/outfoo` does not lie
under the destination directory `/out`, its filename is not build
metadata and starts with neither `_` nor `.`, yet `ignorePath` is true
for it — the code tests a raw string-prefix, not directory
containment. -/
theorem c8_ignore_counterexample :
    ignorePath "/out" "/outfoo" = true ∧ ignoredFromSpec "/out" "/outfoo" = false := by
  refine ⟨by decide, by decide⟩

/-- C8 (amended): `isIgnored(path)` is true exactly when the path starts
with the destination-directory *string* (which also catches sibling
paths sharing that prefix), or the filename is one of `site.ts`,
`deno.json`, `deno.lock`, or the filename starts with `_` or `.`; every
ignored path is excluded both from page registration in `loadAll` and
from the `buildAll` traversal targets. -/
theorem c8_ignore_amended (deps : GenDeps) (global : Attrs) (files : List String)
    (fs : List (String × String)) (srcDir destDir : String)
    (env : ImpEnv) (pretty : String → String) (fuel : Nat)
    (st : List (String × Page)) (w1 w2 : List String) (p : String) :
    (ignorePath destDir p
      = (startsWithS p destDir
          || (basename p == "site.ts" || basename p == "deno.json" || basename p == "deno.lock")
          || startsWithS (basename p) "_"
          || startsWithS (basename p) ".")) ∧
    (ignorePath destDir p = true →
      loadAll deps global files fs srcDir destDir st (w1 ++ p :: w2)
        = loadAll deps global files fs srcDir destDir st (w1 ++ w2) ∧
      buildAllActions env pretty fuel destDir srcDir st (w1 ++ p :: w2)
        = buildAllActions env pretty fuel destDir srcDir st (w1 ++ w2)) := by
  constructor
  · by_cases h : startsWithS p destDir = true
    · simp [ignorePath, h]
    · simp only [Bool.not_eq_true] at h
      simp [ignorePath, h]
  · intro h
    constructor
    · simp [loadAll, List.foldl_append, h]
    · have hnone : buildAction env pretty fuel destDir srcDir st p = none := by
        simp [buildAction, h]
      simp [buildAllActions, List.filterMap_append, hnone]

/-- Witness for C8's exclusion part: a dotfile is skipped by both walks. -/
theorem c8_ignore_amended_witness :
    loadAll deps0 [] [] [] "/s" "/out" [] ([] ++ "/s/.env" :: ["/s/a.md"])
      = loadAll deps0 [] [] [] "/s" "/out" [] ([] ++ ["/s/a.md"]) ∧
    buildAllActions envErr id 1 "/out" "/s" [] ([] ++ "/s/.env" :: ["/s/a.md"])
      = buildAllActions envErr id 1 "/out" "/s" [] ([] ++ ["/s/a.md"]) :=
  (c8_ignore_amended deps0 [] [] [] "/s" "/out" envErr id 1 [] [] ["/s/a.md"]
    "/s/.env").2 (by decide)

/-- C9: rendering a registered Page twice with no intervening change is
repeatable — `Generator.render` reads nothing but the page (the registry
passes through untouched), so the second rendering yields the identical
output string. -/
theorem c9_render_repeatable (env : ImpEnv) (pretty : String → String) (fuel : Nat)
    (st : List (String × Page)) (p : Page) :
    (renderSt env pretty fuel st p).1 = st ∧
    (renderSt env pretty fuel (renderSt env pretty fuel st p).1 p).2
      = (renderSt env pretty fuel st p).2 :=
  ⟨rfl, rfl⟩

/-- C10: in `v(tag, attrs, ...children)`, a single argument that is an
array becomes the children list itself (flattened), and in every other
case the children list is the argument sequence unchanged. -/
theorem c10_v_flatten (tag : VTag) (attrs : Option Attrs) (l : List VNode)
    (args : List VNode) :
    v tag attrs [VNode.varr l] = VNode.node tag attrs (some l) ∧
    (isSingleArrayArg args = false →
      v tag attrs args = VNode.node tag attrs (some args)) := by
  refine ⟨rfl, ?_⟩
  intro h
  cases args with
  | nil => rfl
  | cons a t =>
    cases t with
    | cons b t2 => cases a <;> rfl
    | nil =>
      cases a with
      | str s => rfl
      | node x y z => rfl
      | varr l2 => simp [isSingleArrayArg] at h

/-- Witness for C10's non-flattening side at a two-argument call. -/
theorem c10_v_flatten_witness :
    v (VTag.lit "ul") none [VNode.str "a", VNode.str "b"]
      = VNode.node (VTag.lit "ul") none (some [VNode.str "a", VNode.str "b"]) :=
  (c10_v_flatten (VTag.lit "ul") none [] [VNode.str "a", VNode.str "b"]).2 (by decide)

end Tinygen
